import Mathlib

/-!
Verification of the conventional-commit header parser (`commit.go` of
`wfscheper/convcom`).

The Go source is shallowly embedded over `List Char`: a Go string is a
UTF-8 byte sequence iterated rune-by-rune, which we model as the list of
its Unicode code points while tracking the running byte offset explicitly
(`Go`'s `for i, c := range h` binds `i` to the BYTE offset of rune `c`,
and `len(h)` is the byte length; `Char.utf8Size` gives each rune's
encoded width).  Fallible Go functions returning `(value, error)` pairs
where every error site returns a nil value are embedded as `Except`.
-/

namespace Convcom

/-- `unicode.IsSpace` from the Go standard library: the white-space code
points recognised by `strings.TrimSpace` ('\t','\n','\v','\f','\r',' ',
NEL, NBSP and the Unicode White_Space spaces). -/
def goIsSpace (c : Char) : Bool :=
  c.toNat = 9 || c.toNat = 10 || c.toNat = 11 || c.toNat = 12 || c.toNat = 13 ||
  c.toNat = 32 || c.toNat = 0x85 || c.toNat = 0xA0 || c.toNat = 0x1680 ||
  (0x2000 ≤ c.toNat && c.toNat ≤ 0x200A) ||
  c.toNat = 0x2028 || c.toNat = 0x2029 || c.toNat = 0x202F ||
  c.toNat = 0x205F || c.toNat = 0x3000

/-- `strings.TrimSpace`: drop leading and trailing white space. -/
def trimSpace (l : List Char) : List Char :=
  ((l.dropWhile goIsSpace).reverse.dropWhile goIsSpace).reverse

/-- UTF-8 byte length of a list of code points (`len` of the Go string). -/
def utf8Len (l : List Char) : Nat :=
  (l.map Char.utf8Size).sum

/-- The `Commit` record of `commit.go`, restricted to the three fields the
header scanner populates (`Type`, `Scope`, `Description`); the remaining
fields are collaborator-owned and stay zero-valued throughout the core, so
they are omitted.  `Type` is a Lean keyword, hence the field name `Type'`. -/
structure Commit where
  Type' : List Char
  Scope : List Char
  Description : List Char
deriving DecidableEq

/-- `ParseError` of `commit.go`.  `Line` and `Char` are Go `int`s (the
scanner can produce `Char = -1`, see `parseHeader`'s end-of-line branch on
an empty line), hence `Int`. -/
structure ParseError where
  Line : Int
  Char : Int
  Message : String
deriving DecidableEq

/-- `ParseError.Error`: `fmt.Sprintf("%s:%d col %d", p.Message, p.Line, p.Char)`. -/
def ParseError.Error (p : ParseError) : String :=
  p.Message ++ ":" ++ toString p.Line ++ " col " ++ toString p.Char

/-- `fmtError` of `commit.go`: `fmt.Sprintf(format, field)` where `field`
is `"scope"` when `inScope` and `"type"` otherwise.  The one-hole `%s`
format string is represented by its prefix and suffix. -/
def fmtError (pre post : String) (inScope : Bool) : String :=
  pre ++ (if inScope then "scope" else "type") ++ post

/-- The state threaded through `parseHeader`'s character loop: the line
number argument, the byte offset `pos` of the next character (Go's range
index `i`), the two booleans `inScope`/`inDescription`, the
`strings.Builder` buffer `buf`, and the `commit.Type`/`commit.Scope`
fields assigned so far. -/
structure ScanState where
  line : Int
  pos : Nat
  inScope : Bool
  inDescription : Bool
  buf : List Char
  ty : List Char
  scope : List Char
deriving DecidableEq

/-- The lookahead of `parseHeader`'s `case ':'`: Go inspects the BYTES
`h[i+1]` and `h[i+2]`.  Since ':' and ' ' are one byte wide, `h[i+1]` is
the first byte of the next rune and equals `' '` iff that rune is `' '`
(a multi-byte rune's first byte is ≥ 0xC2); `h[i+2]` is only inspected
after `h[i+1] == ' '`, so it likewise is the first byte of the rune after
the space.  `rest` is the list of runes after the colon, `pos` the
colon's byte offset `i`; the result is the Go variable `char`, whose zero
value doubles as "no error". -/
def colonChar (pos : Nat) (rest : List Char) : Nat :=
  match rest with
  | [] => pos
  | c1 :: rest2 =>
    if c1 ≠ ' ' then pos + 1
    else
      match rest2 with
      | c2 :: _ => if c2 = ' ' then pos + 2 else 0
      | [] => 0

/-- One iteration of `parseHeader`'s `for i, c := range h` loop body.
`rest` is the not-yet-consumed remainder of the line (used only for the
colon lookahead).  `strings.Builder.WriteRune` never returns an error, so
that Go error path is vacuous and omitted. -/
def headerStep (σ : ScanState) (c : Char) (rest : List Char) :
    Except ParseError ScanState :=
  if σ.inDescription then
    .ok ⟨σ.line, σ.pos + c.utf8Size, σ.inScope, true, σ.buf ++ [c], σ.ty, σ.scope⟩
  else if c = '(' then
    if σ.inScope then
      .error ⟨σ.line, (σ.pos : Int), "illegal '(' character in scope"⟩
    else if σ.buf = [] then
      .error ⟨σ.line, (σ.pos : Int), "illegal '(' character in type"⟩
    else
      .ok ⟨σ.line, σ.pos + 1, true, false, [], σ.buf, σ.scope⟩
  else if c = ')' then
    if σ.inScope then
      .ok ⟨σ.line, σ.pos + 1, true, false, [], σ.ty, σ.buf⟩
    else
      .error ⟨σ.line, (σ.pos : Int), "illegal ')' character in type"⟩
  else if c = ':' then
    if colonChar σ.pos rest = 0 then
      if σ.inScope then
        .ok ⟨σ.line, σ.pos + 1, σ.inScope, true, σ.buf, σ.ty, σ.scope⟩
      else
        .ok ⟨σ.line, σ.pos + 1, σ.inScope, true, [], σ.buf, σ.scope⟩
    else
      .error ⟨σ.line, (colonChar σ.pos rest : Int),
        fmtError "commit " " must be followed by a colon and a single space" σ.inScope⟩
  else if c = ' ' then
    .error ⟨σ.line, (σ.pos : Int), fmtError "illegal ' ' character in " "" σ.inScope⟩
  else
    if σ.scope = [] then
      .ok ⟨σ.line, σ.pos + c.utf8Size, σ.inScope, false, σ.buf ++ [c], σ.ty, σ.scope⟩
    else
      .error ⟨σ.line, (σ.pos : Int),
        "commit scope must be followed by a colon and a single space"⟩

/-- The loop of `parseHeader` plus its epilogue: when the line is
exhausted without having entered the description, fail at `len(h)-1`
(at that point `σ.pos` is the full byte length); otherwise return the
commit with the description trimmed. -/
def scanHeader (σ : ScanState) : List Char → Except ParseError Commit
  | [] =>
    if σ.inDescription then
      .ok ⟨σ.ty, σ.scope, trimSpace σ.buf⟩
    else
      .error ⟨σ.line, (σ.pos : Int) - 1,
        fmtError "commit " " must be followed by a colon and a single space" σ.inScope⟩
  | c :: rest =>
    match headerStep σ c rest with
    | .error e => .error e
    | .ok σ' => scanHeader σ' rest

/-- The initial loop state of `parseHeader h line`. -/
def initState (line : Int) : ScanState :=
  ⟨line, 0, false, false, [], [], []⟩

/-- `parseHeader` of `commit.go` (the receiver `p` is unused there). -/
def parseHeader (h : List Char) (line : Int) : Except ParseError Commit :=
  scanHeader (initState line) h

/-- The two error shapes `Parse` can return: a positioned `ParseError`
propagated from the scanner, or a plain `errors.New` string. -/
inductive GoError where
  | parseErr : ParseError → GoError
  | plain : String → GoError
deriving DecidableEq

/-- `strings.Split(s, "\n")[0]`: the prefix of `s` before its first
newline. -/
def firstLine (s : List Char) : List Char :=
  s.takeWhile (fun c => c ≠ '\n')

/-- `Parse` of `commit.go`: scan the first line as the header, then
reject an empty type or an empty description (the scanner's receiver and
config play no role in header parsing). -/
def Parse (s : List Char) : Except GoError Commit :=
  match parseHeader (firstLine s) 1 with
  | .error e => .error (.parseErr e)
  | .ok c =>
    if c.Type' = [] then .error (.plain "commit header must contain a type")
    else if c.Description = [] then
      .error (.plain "commit header must contain a description")
    else .ok c

deriving instance DecidableEq for Except

/-- `err.Error()` of a `parseHeader` result, `none` on success (the Go
tests compare this string). -/
def errString : Except ParseError Commit → Option String
  | .error e => some e.Error
  | .ok _ => none

/-- A compiled `*regexp.Regexp`, identified by its pattern string (Go's
`regexp.Compile` returns a matcher whose `String()` is the input
pattern; the core never runs a match, so the pattern is all that is
observable here). -/
structure Regexp where
  pattern : String
deriving DecidableEq

/-- The `Config` struct of `commit.go`.  Go distinguishes a nil slice
(defaulted by `New`) from a non-nil one, hence `Option (List String)`;
the unexported compiled-pattern fields are `Option Regexp` (nil pointer =
`none`).  The `ErrorCallback` function field is never read by the core
and is omitted. -/
structure Config where
  MergePattern : String
  mergePattern : Option Regexp
  MergeGroups : Option (List String)
  ReferenceActions : Option (List String)
  IssuePrefixes : Option (List String)
  IssuePrefixesCaseSensitive : Bool
  NoteKeywords : Option (List String)
  FieldPattern : String
  fieldPattern : Option Regexp
  RevertPattern : String
  revertPattern : Option Regexp
  RevertGroups : Option (List String)
  CommentCharacter : String
deriving DecidableEq

/-- The zero value `Config{}` that `&Config{}` denotes in Go. -/
def emptyConfig : Config :=
  ⟨"", none, none, none, none, false, none, "", none, "", none, none, ""⟩

/-- Package-level default `referenceActions` of `commit.go`. -/
def referenceActions : List String :=
  ["close", "closes", "closed", "fix", "fixes", "fixed",
   "resolve", "resolves", "resolved"]

/-- Package-level default `issuePrefixes` of `commit.go`. -/
def issuePrefixes : List String := ["#"]

/-- Package-level default `noteKeywords` of `commit.go`. -/
def noteKeywords : List String := ["BREAKING CHANGE"]

/-- Package-level default `fieldPattern = regexp.MustCompile("^-(.*?)-$")`. -/
def fieldPattern : Regexp := ⟨"^-(.*?)-$"⟩

/-- Package-level default `revertPattern` of `commit.go`. -/
def revertPattern : Regexp :=
  ⟨"^Revert\\s\"([\\s\\S]*)\"\\s*This reverts commit (\\w*)\\."⟩

/-- Package-level default `revertGropus` (sic) of `commit.go`. -/
def revertGropus : List String := ["header", "hash"]

/-- `New` of `commit.go`, which compiles/validates the supplied patterns
and fills in defaults, returning the parser's final configuration.
`regexp.Compile` is abstracted by `compileErr`: `compileErr pat = none`
means `pat` compiles (to the matcher `⟨pat⟩`), `some e` means it fails
with error text `e`.  NOTE the `FieldPattern` branch is translated
faithfully from the source: when the supplied `FieldPattern` compiles,
the `else` arm of `if err != nil` OVERWRITES the just-compiled matcher
with the package default `fieldPattern`, and when `FieldPattern` is
unset no default is substituted at all (`cfg.fieldPattern` stays nil). -/
def New (compileErr : String → Option String) (cfg : Config) :
    Except String Config := do
  let mut c := cfg
  if c.FieldPattern ≠ "" then
    match compileErr c.FieldPattern with
    | some e =>
      throw ("cannot parse FieldPattern /" ++ c.FieldPattern ++ "/: " ++ e)
    | none => c := { c with fieldPattern := some fieldPattern }
  if c.IssuePrefixes = none then
    c := { c with IssuePrefixes := some issuePrefixes }
  if c.MergePattern ≠ "" then
    match compileErr c.MergePattern with
    | some e =>
      throw ("cannot parse MergePattern /" ++ c.MergePattern ++ "/: " ++ e)
    | none => c := { c with mergePattern := some ⟨c.MergePattern⟩ }
  if c.NoteKeywords = none then
    c := { c with NoteKeywords := some noteKeywords }
  if c.ReferenceActions = none then
    c := { c with ReferenceActions := some referenceActions }
  if c.RevertGroups = none then
    c := { c with RevertGroups := some revertGropus }
  if c.RevertPattern ≠ "" then
    match compileErr c.RevertPattern with
    | some e =>
      throw ("cannot parse RevertPattern /" ++ c.RevertPattern ++ "/: " ++ e)
    | none => c := { c with revertPattern := some ⟨c.RevertPattern⟩ }
  else
    c := { c with revertPattern := some revertPattern }
  return c

/-- The character restriction of the spec's §8 property shapes: no
space, `'('`, `')'` or `':'` anywhere in the field. -/
def noSpecials (l : List Char) : Prop :=
  ∀ c ∈ l, c ≠ ' ' ∧ c ≠ '(' ∧ c ≠ ')' ∧ c ≠ ':'

instance (l : List Char) : Decidable (noSpecials l) :=
  inferInstanceAs (Decidable (∀ c ∈ l, _))

/-- The scanner configuration `(σ, l)` steps to `(σ', l')`:
`Reaches σ₀ h σ q` says that running `parseHeader`'s loop from state `σ₀`
on input `h` arrives, without error, at state `σ` with unconsumed suffix
`q`. -/
inductive Reaches : ScanState → List Char → ScanState → List Char → Prop
  | refl (σ : ScanState) (h : List Char) : Reaches σ h σ h
  | step {σ₀ : ScanState} {h : List Char} {σ : ScanState} {c : Char}
      {rest : List Char} {σ' : ScanState} :
      Reaches σ₀ h σ (c :: rest) → headerStep σ c rest = .ok σ' →
      Reaches σ₀ h σ' rest

/-- Scanning factors through any reached configuration. -/
lemma scanHeader_of_reaches {σ₀ : ScanState} {h : List Char} {σ : ScanState}
    {q : List Char} (hr : Reaches σ₀ h σ q) :
    scanHeader σ₀ h = scanHeader σ q := by
  induction hr with
  | refl => rfl
  | step hr hs ih =>
    rw [ih, scanHeader, hs]

/-- Executable step-counting companion of `Reaches`, used to exhibit
concrete reached configurations by evaluation. -/
def runSteps : ScanState → List Char → Nat → Option (ScanState × List Char)
  | σ, l, 0 => some (σ, l)
  | _, [], _ + 1 => none
  | σ, c :: rest, n + 1 =>
    match headerStep σ c rest with
    | .error _ => none
    | .ok σ' => runSteps σ' rest n

/-- A step can be prepended to a reachability derivation. -/
lemma Reaches.head {σ : ScanState} {c : Char} {rest : List Char}
    {σ₂ : ScanState} {σ' : ScanState} {q : List Char}
    (hs : headerStep σ c rest = .ok σ₂) (hr : Reaches σ₂ rest σ' q) :
    Reaches σ (c :: rest) σ' q := by
  induction hr with
  | refl => exact Reaches.step (Reaches.refl σ (c :: rest)) hs
  | step hr hs' ih => exact Reaches.step ih hs'

/-- `runSteps` only produces genuinely reachable configurations. -/
lemma runSteps_reaches : ∀ (n : Nat) (σ : ScanState) (l : List Char)
    (σ' : ScanState) (q : List Char),
    runSteps σ l n = some (σ', q) → Reaches σ l σ' q := by
  intro n
  induction n with
  | zero =>
    intro σ l σ' q hrun
    simp only [runSteps] at hrun
    cases hrun
    exact Reaches.refl σ l
  | succ n ih =>
    intro σ l σ' q hrun
    cases l with
    | nil => simp only [runSteps] at hrun; cases hrun
    | cons c rest =>
      simp only [runSteps] at hrun
      cases hstep : headerStep σ c rest with
      | error e => rw [hstep] at hrun; cases hrun
      | ok σ₂ =>
        rw [hstep] at hrun
        exact Reaches.head hstep (ih σ₂ rest σ' q hrun)

/-- Every successful loop iteration advances the byte position by the
UTF-8 width of the consumed character. -/
lemma headerStep_pos {σ : ScanState} {c : Char} {rest : List Char}
    {σ' : ScanState} (h : headerStep σ c rest = .ok σ') :
    σ'.pos = σ.pos + c.utf8Size := by
  unfold headerStep at h
  split_ifs at h <;>
    first
    | exact Except.noConfusion h
    | (cases h; rfl)
    | (cases h; subst_vars; rfl)

/-- The loop never changes the line number. -/
lemma headerStep_line {σ : ScanState} {c : Char} {rest : List Char}
    {σ' : ScanState} (h : headerStep σ c rest = .ok σ') :
    σ'.line = σ.line := by
  unfold headerStep at h
  split_ifs at h <;>
    first
    | exact Except.noConfusion h
    | (cases h; rfl)

/-- A reached configuration still carries the starting line number. -/
lemma reaches_line {σ₀ : ScanState} {h : List Char} {σ : ScanState}
    {q : List Char} (hr : Reaches σ₀ h σ q) : σ.line = σ₀.line := by
  induction hr with
  | refl => rfl
  | step hr hs ih => rw [headerStep_line hs, ih]

/-- The colon branch of the loop, isolated: outside the description the
`':'` case performs the lookahead and either errors or enters the
description. -/
lemma headerStep_colon (σ : ScanState) (rest : List Char)
    (hdesc : σ.inDescription = false) :
    headerStep σ ':' rest =
      if colonChar σ.pos rest = 0 then
        if σ.inScope then
          .ok ⟨σ.line, σ.pos + 1, σ.inScope, true, σ.buf, σ.ty, σ.scope⟩
        else
          .ok ⟨σ.line, σ.pos + 1, σ.inScope, true, [], σ.buf, σ.scope⟩
      else
        .error ⟨σ.line, (colonChar σ.pos rest : Int),
          fmtError "commit " " must be followed by a colon and a single space" σ.inScope⟩ := by
  unfold headerStep
  rw [if_neg (by simp [hdesc]), if_neg (by decide : ¬((':' : Char) = '(')),
    if_neg (by decide : ¬((':' : Char) = ')')), if_pos (rfl : (':' : Char) = ':')]

/-- Trimming absorbs a leading space. -/
lemma trimSpace_space_cons (d : List Char) :
    trimSpace (' ' :: d) = trimSpace d := by
  simp [trimSpace, List.dropWhile_cons, show goIsSpace ' ' = true from by decide]

/-- Scanning a run of ordinary characters (no space, parenthesis or
colon) while the scope field is still empty and the description has not
begun just moves them into the buffer. -/
lemma scan_plain (t : List Char) : ∀ (σ : ScanState) (q : List Char),
    noSpecials t → σ.inDescription = false → σ.scope = [] →
    scanHeader σ (t ++ q) =
      scanHeader ⟨σ.line, σ.pos + utf8Len t, σ.inScope, false, σ.buf ++ t, σ.ty, []⟩ q := by
  induction t with
  | nil =>
    intro σ q _ hdesc hscope
    obtain ⟨line, pos, insc, indesc, buf, ty, scope⟩ := σ
    simp only at hdesc hscope
    subst hdesc hscope
    simp [utf8Len]
  | cons c t ih =>
    intro σ q hns hdesc hscope
    obtain ⟨line, pos, insc, indesc, buf, ty, scope⟩ := σ
    simp only at hdesc hscope
    subst hdesc hscope
    have hc := hns c (List.mem_cons_self c t)
    have hstep : headerStep ⟨line, pos, insc, false, buf, ty, []⟩ c (t ++ q) =
        .ok ⟨line, pos + c.utf8Size, insc, false, buf ++ [c], ty, []⟩ := by
      simp [headerStep, hc.1, hc.2.1, hc.2.2.1, hc.2.2.2]
    rw [List.cons_append, scanHeader, hstep]
    show scanHeader ⟨line, pos + c.utf8Size, insc, false, buf ++ [c], ty, []⟩ (t ++ q) = _
    rw [ih ⟨line, pos + c.utf8Size, insc, false, buf ++ [c], ty, []⟩ q
        (fun x hx => hns x (List.mem_cons_of_mem c hx)) rfl rfl]
    simp [utf8Len, Nat.add_assoc]

/-- Once the description has begun, every remaining character is
appended verbatim and the scan succeeds with the trimmed buffer. -/
lemma scan_desc (d : List Char) : ∀ σ : ScanState, σ.inDescription = true →
    scanHeader σ d = .ok ⟨σ.ty, σ.scope, trimSpace (σ.buf ++ d)⟩ := by
  induction d with
  | nil =>
    intro σ hdesc
    rw [scanHeader, if_pos hdesc]
    simp
  | cons c d ih =>
    intro σ hdesc
    obtain ⟨line, pos, insc, indesc, buf, ty, scope⟩ := σ
    simp only at hdesc
    subst hdesc
    have hstep : headerStep ⟨line, pos, insc, true, buf, ty, scope⟩ c d =
        .ok ⟨line, pos + c.utf8Size, insc, true, buf ++ [c], ty, scope⟩ := by
      simp [headerStep]
    rw [scanHeader, hstep]
    show scanHeader ⟨line, pos + c.utf8Size, insc, true, buf ++ [c], ty, scope⟩ d = _
    rw [ih ⟨line, pos + c.utf8Size, insc, true, buf ++ [c], ty, scope⟩ rfl]
    simp

/-- A reached scanner configuration has consumed a prefix of the line
and its position is that prefix's UTF-8 byte length past the start. -/
lemma reaches_pos {σ₀ : ScanState} {h : List Char} {σ : ScanState}
    {q : List Char} (hr : Reaches σ₀ h σ q) :
    ∃ p, h = p ++ q ∧ σ.pos = σ₀.pos + utf8Len p := by
  induction hr with
  | refl => exact ⟨[], by simp [utf8Len]⟩
  | @step σm c rest σ' hr hs ih =>
    obtain ⟨p, hp, hpos⟩ := ih
    refine ⟨p ++ [c], ?_, ?_⟩
    · simp [hp]
    · rw [headerStep_pos hs, hpos]
      simp [utf8Len, Nat.add_assoc]

/-- C1: for non-empty `type` and `description` free of space/`(`/`)`/`:`,
`parseHeader` on `"type: description"` succeeds with `Type = type`,
`Scope = ""` and `Description = description` (after whitespace trimming),
and for an additional such non-empty `scope`, `"type(scope): description"`
succeeds with `Scope = scope` as well. -/
theorem C1_header_shapes (t s d : List Char) (ht : t ≠ []) (_hs : s ≠ [])
    (hd : d ≠ []) (hts : noSpecials t) (hss : noSpecials s) (hds : noSpecials d) :
    parseHeader (t ++ ':' :: ' ' :: d) 1 = .ok ⟨t, [], trimSpace d⟩ ∧
    parseHeader (t ++ '(' :: (s ++ ')' :: ':' :: ' ' :: d)) 1 = .ok ⟨t, s, trimSpace d⟩ := by
  obtain ⟨c2, d', rfl⟩ : ∃ c2 d', d = c2 :: d' := by
    cases d with
    | nil => exact absurd rfl hd
    | cons a l => exact ⟨a, l, rfl⟩
  have hc2 : c2 ≠ ' ' := (hds c2 (List.mem_cons_self c2 d')).1
  have hcc : ∀ pos : Nat, colonChar pos (' ' :: c2 :: d') = 0 := by
    intro pos
    simp [colonChar, hc2]
  constructor
  · rw [parseHeader, initState,
      scan_plain t ⟨1, 0, false, false, [], [], []⟩ (':' :: ' ' :: c2 :: d') hts rfl rfl]
    simp only [Nat.zero_add, List.nil_append]
    rw [scanHeader, headerStep_colon _ _ rfl, hcc, if_pos rfl, if_neg (by simp)]
    show scanHeader ⟨1, utf8Len t + 1, false, true, [], t, []⟩ (' ' :: c2 :: d') = _
    rw [scan_desc (' ' :: c2 :: d') _ rfl]
    simp [trimSpace_space_cons]
  · rw [parseHeader, initState,
      scan_plain t ⟨1, 0, false, false, [], [], []⟩ ('(' :: (s ++ ')' :: ':' :: ' ' :: c2 :: d')) hts rfl rfl]
    simp only [Nat.zero_add, List.nil_append]
    have hstep1 : headerStep ⟨1, utf8Len t, false, false, t, [], []⟩ '('
        (s ++ ')' :: ':' :: ' ' :: c2 :: d') =
        .ok ⟨1, utf8Len t + 1, true, false, [], t, []⟩ := by
      simp [headerStep, ht]
    rw [scanHeader, hstep1]
    show scanHeader ⟨1, utf8Len t + 1, true, false, [], t, []⟩
      (s ++ ')' :: ':' :: ' ' :: c2 :: d') = _
    rw [scan_plain s ⟨1, utf8Len t + 1, true, false, [], t, []⟩ _ hss rfl rfl]
    simp only [List.nil_append]
    have hstep2 : headerStep ⟨1, utf8Len t + 1 + utf8Len s, true, false, s, t, []⟩ ')'
        (':' :: ' ' :: c2 :: d') =
        .ok ⟨1, utf8Len t + 1 + utf8Len s + 1, true, false, [], t, s⟩ := by
      simp [headerStep]
    rw [scanHeader, hstep2]
    show scanHeader ⟨1, utf8Len t + 1 + utf8Len s + 1, true, false, [], t, s⟩
      (':' :: ' ' :: c2 :: d') = _
    rw [scanHeader, headerStep_colon _ _ rfl, hcc, if_pos rfl, if_pos rfl]
    show scanHeader ⟨1, utf8Len t + 1 + utf8Len s + 1 + 1, true, true, [], t, s⟩
      (' ' :: c2 :: d') = _
    rw [scan_desc (' ' :: c2 :: d') _ rfl]
    simp [trimSpace_space_cons]

/-- C1 witness at `"fix: bugs"` and `"fix(lib): bugs"`. -/
theorem C1_header_shapes_witness :
    parseHeader ("fix".toList ++ ':' :: ' ' :: "bugs".toList) 1 =
      .ok ⟨"fix".toList, [], trimSpace "bugs".toList⟩ ∧
    parseHeader ("fix".toList ++ '(' :: ("lib".toList ++ ')' :: ':' :: ' ' :: "bugs".toList)) 1 =
      .ok ⟨"fix".toList, "lib".toList, trimSpace "bugs".toList⟩ :=
  C1_header_shapes "fix".toList "lib".toList "bugs".toList (by decide) (by decide)
    (by decide) (by decide) (by decide) (by decide)

/-- C2: a `Commit` returned successfully by `Parse` has a non-empty type
and a non-empty description (a failing `Parse` returns no commit at all,
which the `Except` result type makes structural). -/
theorem C2_parse_invariant (s : List Char) (c : Commit)
    (h : Parse s = .ok c) : c.Type' ≠ [] ∧ c.Description ≠ [] := by
  unfold Parse at h
  split at h
  · exact Except.noConfusion h
  · split at h
    · exact Except.noConfusion h
    · split at h
      · exact Except.noConfusion h
      · rename_i h1 h2
        injection h with h3
        subst h3
        exact ⟨h1, h2⟩

/-- C2 witness at `"fix: a"`. -/
theorem C2_parse_invariant_witness :
    (Commit.mk "fix".toList [] ['a']).Type' ≠ [] ∧
    (Commit.mk "fix".toList [] ['a']).Description ≠ [] :=
  C2_parse_invariant "fix: a".toList (Commit.mk "fix".toList [] ['a']) (by decide)

/-- C3 counterexample: on the line `":"` the colon IS the last character
of the line and is reached outside the description state, yet
`parseHeader` succeeds (with every field empty) instead of failing — the
computed error column, the colon's own index 0, collides with Go's `0`
"no error" sentinel, so the guard `0 != char` skips the error. -/
theorem C3_colon_last_counterexample :
    parseHeader [':'] 1 = .ok ⟨[], [], []⟩ := by decide

/-- C3 amended: when the scanner reaches a `':'` that is the last
character of the line outside the description state AND the colon is not
at position 0, `parseHeader` fails with the templated "must be followed
by a colon and a single space" message positioned at the colon's own
(byte) index; at position 0 (the line `":"`) the error is skipped. -/
theorem C3_colon_last_amended (h : List Char) (line : Int) (σ : ScanState)
    (hr : Reaches (initState line) h σ [':'])
    (hdesc : σ.inDescription = false) (hpos : σ.pos ≠ 0) :
    parseHeader h line = .error ⟨line, (σ.pos : Int),
      fmtError "commit " " must be followed by a colon and a single space" σ.inScope⟩ := by
  have hline : σ.line = line := reaches_line hr
  rw [parseHeader, scanHeader_of_reaches hr, scanHeader,
    headerStep_colon σ [] hdesc]
  rw [show colonChar σ.pos [] = σ.pos from rfl, if_neg hpos, hline]

/-- C3 amended witness at `"a:"`. -/
theorem C3_colon_last_amended_witness :
    parseHeader ['a', ':'] 1 = .error ⟨1, 1,
      fmtError "commit " " must be followed by a colon and a single space" false⟩ :=
  C3_colon_last_amended ['a', ':'] 1 ⟨1, 1, false, false, ['a'], [], []⟩
    (runSteps_reaches 1 (initState 1) ['a', ':']
      ⟨1, 1, false, false, ['a'], [], []⟩ [':'] (by decide))
    rfl (by decide)

/-- C4 counterexample: in `"a(b) x"` the scope `b` is closed by `)` and
the next character reached is not `':'`, but the error is the space's
own "illegal ' ' character in scope", not the claimed "commit scope must
be followed by a colon and a single space". -/
theorem C4_scope_counterexample :
    parseHeader "a(b) x".toList 1 =
      .error ⟨1, 4, "illegal ' ' character in scope"⟩ ∧
    "illegal ' ' character in scope" ≠
      "commit scope must be followed by a colon and a single space" :=
  ⟨by decide, by decide⟩

/-- C4 amended: after a NON-EMPTY scope has been closed by `)`, the next
character reached, when it is an ordinary character (none of `(`, `)`,
`:`, space), makes `parseHeader` fail with "commit scope must be
followed by a colon and a single space" at that character's (byte)
column; a following `(` or space instead raises the corresponding
"illegal … character in scope" error, and a following `)` resets the
scope without error. -/
theorem C4_scope_amended (h : List Char) (line : Int) (σ : ScanState)
    (c : Char) (rest : List Char)
    (hr : Reaches (initState line) h σ (c :: rest))
    (hdesc : σ.inDescription = false) (hscope : σ.scope ≠ [])
    (hc1 : c ≠ '(') (hc2 : c ≠ ')') (hc3 : c ≠ ':') (hc4 : c ≠ ' ') :
    parseHeader h line = .error ⟨line, (σ.pos : Int),
      "commit scope must be followed by a colon and a single space"⟩ := by
  have hline : σ.line = line := reaches_line hr
  rw [parseHeader, scanHeader_of_reaches hr, scanHeader]
  have hstep : headerStep σ c rest = .error ⟨line, (σ.pos : Int),
      "commit scope must be followed by a colon and a single space"⟩ := by
    simp [headerStep, hdesc, hscope, hc1, hc2, hc3, hc4, hline]
  rw [hstep]

/-- C4 amended witness at `"a(b)x"`. -/
theorem C4_scope_amended_witness :
    parseHeader "a(b)x".toList 1 = .error ⟨1, 4,
      "commit scope must be followed by a colon and a single space"⟩ :=
  C4_scope_amended "a(b)x".toList 1 ⟨1, 4, true, false, [], ['a'], ['b']⟩ 'x' []
    (runSteps_reaches 4 (initState 1) "a(b)x".toList
      ⟨1, 4, true, false, [], ['a'], ['b']⟩ ['x'] (by decide))
    rfl (by decide) (by decide) (by decide) (by decide) (by decide)

/-- C5: when the scanner reaches a top-level (non-description) `':'`
followed by two spaces, `parseHeader` fails with the "must be followed
by a colon and a single space" message (type or scope variant per
`inScope`) positioned at the (byte) column of the second space, two past
the colon. -/
theorem C5_double_space (h : List Char) (line : Int) (σ : ScanState)
    (rest : List Char)
    (hr : Reaches (initState line) h σ (':' :: ' ' :: ' ' :: rest))
    (hdesc : σ.inDescription = false) :
    parseHeader h line = .error ⟨line, (σ.pos : Int) + 2,
      fmtError "commit " " must be followed by a colon and a single space" σ.inScope⟩ := by
  have hline : σ.line = line := reaches_line hr
  rw [parseHeader, scanHeader_of_reaches hr, scanHeader,
    headerStep_colon σ _ hdesc]
  have hcc : colonChar σ.pos (' ' :: ' ' :: rest) = σ.pos + 2 := by
    simp [colonChar]
  rw [hcc, if_neg (by omega), hline]
  norm_cast

/-- C5 witness at `"t:  d"`. -/
theorem C5_double_space_witness :
    parseHeader "t:  d".toList 1 = .error ⟨1, (1 : Int) + 2,
      fmtError "commit " " must be followed by a colon and a single space" false⟩ :=
  C5_double_space "t:  d".toList 1 ⟨1, 1, false, false, ['t'], [], []⟩ ['d']
    (runSteps_reaches 1 (initState 1) "t:  d".toList
      ⟨1, 1, false, false, ['t'], [], []⟩ (':' :: ' ' :: ' ' :: ['d']) (by decide))
    rfl

/-- C6 counterexample: positions count UTF-8 BYTES, not code points.  In
`"é "` the offending space is the character at code-point index 1 but
the error carries `Char = 2` (é is two bytes); in `"é"` the line's last
character has code-point index 0 but the end-of-line error carries
`Char = 1` (= byte length − 1). -/
theorem C6_char_counterexample :
    parseHeader ['é', ' '] 1 = .error ⟨1, 2, "illegal ' ' character in type"⟩ ∧
    parseHeader ['é'] 1 = .error ⟨1, 1,
      "commit type must be followed by a colon and a single space"⟩ :=
  ⟨by decide, by decide⟩

/-- C6 amended: every reached scanner position is the UTF-8 byte length
of the consumed prefix (so every `ParseError`'s `Char` is a byte offset,
agreeing with the code-point index only on ASCII), and the end-of-line
"never entered description" error is positioned at (byte length of the
line) − 1. -/
theorem C6_byte_positions (h : List Char) (line : Int) (σ : ScanState)
    (q : List Char) (hr : Reaches (initState line) h σ q) :
    (∃ p, h = p ++ q ∧ σ.pos = utf8Len p) ∧
    (q = [] → σ.inDescription = false →
      parseHeader h line = .error ⟨line, (utf8Len h : Int) - 1,
        fmtError "commit " " must be followed by a colon and a single space" σ.inScope⟩) := by
  have hline : σ.line = line := reaches_line hr
  obtain ⟨p, hp, hpos⟩ := reaches_pos hr
  have hpos' : σ.pos = utf8Len p := by simpa [initState] using hpos
  constructor
  · exact ⟨p, hp, hpos'⟩
  · intro hq hdesc
    subst hq
    rw [parseHeader, scanHeader_of_reaches hr, scanHeader,
      if_neg (by simp [hdesc]), hline]
    rw [List.append_nil] at hp
    rw [hpos', hp]

/-- C6 amended witness at `"ab"`. -/
theorem C6_byte_positions_witness :
    (∃ p, ['a', 'b'] = p ++ [] ∧ (2 : Nat) = utf8Len p) ∧
    (([] : List Char) = [] → false = false →
      parseHeader ['a', 'b'] 1 = .error ⟨1, (utf8Len ['a', 'b'] : Int) - 1,
        fmtError "commit " " must be followed by a colon and a single space" false⟩) :=
  C6_byte_positions ['a', 'b'] 1 ⟨1, 2, false, false, ['a', 'b'], [], []⟩ []
    (runSteps_reaches 2 (initState 1) ['a', 'b']
      ⟨1, 2, false, false, ['a', 'b'], [], []⟩ [] (by decide))

/-- C7: `ParseError` formats as `"<message>:<line> col <char>"`, and the
literal scenarios: `"fix(foo): fixed the foos"` parses to
`{Type:"fix", Scope:"foo", Description:"fixed the foos"}`, `"type"`
fails with error string
`"commit type must be followed by a colon and a single space:1 col 3"`,
and `"type(scope):"` fails with
`"commit scope must be followed by a colon and a single space:1 col 11"`. -/
theorem C7_literal_scenarios :
    (∀ (l ch : Int) (m : String),
      (ParseError.mk l ch m).Error = m ++ ":" ++ toString l ++ " col " ++ toString ch) ∧
    parseHeader "fix(foo): fixed the foos".toList 1 =
      .ok ⟨"fix".toList, "foo".toList, "fixed the foos".toList⟩ ∧
    errString (parseHeader "type".toList 1) =
      some "commit type must be followed by a colon and a single space:1 col 3" ∧
    errString (parseHeader "type(scope):".toList 1) =
      some "commit scope must be followed by a colon and a single space:1 col 11" :=
  ⟨fun _ _ _ => rfl, by decide, by decide, by decide⟩

/-- C8: a syntactically valid header line whose description is empty is
accepted by the scanner but rejected by `Parse` with the unpositioned
"commit header must contain a description" (when the type is non-empty,
the type check coming first), and an empty type from the scanner is
rejected with "commit header must contain a type"; `"type: "` is the
literal instance. -/
theorem C8_semantic_rejection :
    (∀ (s : List Char) (c : Commit), parseHeader (firstLine s) 1 = .ok c →
      c.Type' ≠ [] → c.Description = [] →
      Parse s = .error (.plain "commit header must contain a description")) ∧
    (∀ (s : List Char) (c : Commit), parseHeader (firstLine s) 1 = .ok c →
      c.Type' = [] →
      Parse s = .error (.plain "commit header must contain a type")) ∧
    parseHeader "type: ".toList 1 = .ok ⟨"type".toList, [], []⟩ := by
  refine ⟨?_, ?_, by decide⟩
  · intro s c hp hty hde
    unfold Parse
    rw [hp]
    show (if c.Type' = [] then
        Except.error (GoError.plain "commit header must contain a type")
      else if c.Description = [] then
        Except.error (GoError.plain "commit header must contain a description")
      else Except.ok c) = _
    rw [if_neg hty, if_pos hde]
  · intro s c hp hty
    unfold Parse
    rw [hp]
    show (if c.Type' = [] then
        Except.error (GoError.plain "commit header must contain a type")
      else if c.Description = [] then
        Except.error (GoError.plain "commit header must contain a description")
      else Except.ok c) = _
    rw [if_pos hty]

/-- C8 witness at `"type: "` and `":"`. -/
theorem C8_semantic_rejection_witness :
    Parse "type: ".toList = .error (.plain "commit header must contain a description") ∧
    Parse [':'] = .error (.plain "commit header must contain a type") :=
  ⟨C8_semantic_rejection.1 "type: ".toList ⟨"type".toList, [], []⟩
      (by decide) (by decide) rfl,
    C8_semantic_rejection.2.1 [':'] ⟨[], [], []⟩ (by decide) rfl⟩

/-- C9 (bug evidence): `New`'s `FieldPattern` branch contradicts the
documented default.  With a supplied `FieldPattern` that compiles (here
`"^x$"` under a compiler that accepts everything), the `else` arm of the
Go `if err != nil` overwrites the freshly compiled matcher with the
package default `^-(.*?)-$`; and with `FieldPattern` unset, no default
is substituted at all (`fieldPattern` stays nil), although the field's
doc comment promises the default `^-(.*?)-$`. -/
theorem C9_field_pattern_bug :
    (New (fun _ => none) { emptyConfig with FieldPattern := "^x$" }).map
      (fun c => c.fieldPattern) = .ok (some ⟨"^-(.*?)-$"⟩) ∧
    (New (fun _ => none) emptyConfig).map (fun c => c.fieldPattern) = .ok none ∧
    ("^x$" : String) ≠ "^-(.*?)-$" :=
  ⟨by decide, by decide, by decide⟩

/-- C10: on the empty line the scanner's end-of-line branch reports
`Char = len("") - 1 = -1`, one position before the first character, with
the type-variant message and the given line number; `Parse ""` (whose
first line is `""`) propagates exactly that error. -/
theorem C10_empty_line (line : Int) :
    parseHeader [] line = .error ⟨line, -1,
      "commit type must be followed by a colon and a single space"⟩ ∧
    Parse [] = .error (.parseErr ⟨1, -1,
      "commit type must be followed by a colon and a single space"⟩) :=
  ⟨rfl, by decide⟩

end Convcom
